import Mathlib

set_option maxRecDepth 10000

/-!
Verification of the zenmcp request-routing and framing-codec core.

This file shallowly embeds, in Lean 4, the parts of the zenmcp repository
that the verified claims are about:

* the length-prefixed framing codec `protocol/codec.go`
  (`LengthPrefixedCodec.Encode` / `Decode`) and the raw-JSON codec
  (`JSONCodec.Encode` / `Decode`);
* the repository's second implementation of the same codec found in the
  unnamed source file `src/unnamed/part_004` (also `package protocol`),
  whose `Decode` differs materially (case-insensitive header matching,
  a 32-line header bound, tolerance of `Content-Length: 0`);
* `protocol` message types (`RequestID`, `Error`, error codes);
* the registry (`registry/registry.go`: `RegisterTool`, `GetTool`,
  `ListTools`) and the router (`runtime/router.go`: `Route`,
  `handleInitialize`, `handleToolsList`, `handleToolsCall`);
* the server message loop (`mcp/server.go`: `processMessage`).

Byte streams are modelled as `List Char` (the streams in question are
ASCII/UTF-8 text).  Go's `encoding/json` (an external standard-library
collaborator, not part of this repository) is modelled by an executable
JSON value type `Json` with a serializer `render` and a recursive-descent
reader `parseVal`; JSON numbers are modelled as integers and string
escaping is restricted to the quote and backslash escapes, which is the
fragment the claims exercise.  Go `error` values are modelled by explicit
error enumerations / `Except`.
-/

/-! ## Definitions: the embedded program and its model types -/

/-- Whitespace as recognised by `fmt.Sscanf`'s `%s` verb (ASCII fragment). -/
def isSpc (c : Char) : Bool := c = ' ' || c = '\t' || c = '\r' || c = '\n'

/-- Decimal digit test (explicit ASCII character list, kept decidable). -/
def isDig (c : Char) : Bool :=
  c = '0' || c = '1' || c = '2' || c = '3' || c = '4' ||
  c = '5' || c = '6' || c = '7' || c = '8' || c = '9'

/-- A JSON document: the value universe handled by Go's `encoding/json`
as used by this repository.  Numbers are modelled as integers. -/
inductive Json where
  | null
  | bool (b : Bool)
  | num (n : Int)
  | str (s : List Char)
  | arr (elems : List Json)
  | obj (fields : List (List Char × Json))

/-- Decimal digit characters. -/
def digitChar : Nat → Char
  | 0 => '0' | 1 => '1' | 2 => '2' | 3 => '3' | 4 => '4'
  | 5 => '5' | 6 => '6' | 7 => '7' | 8 => '8' | _ => '9'

/-- Digits of `n`, most significant first (fuel-based so it reduces). -/
def natDigitsAux : Nat → Nat → List Char
  | 0, _ => []
  | _ + 1, 0 => []
  | f + 1, n + 1 => natDigitsAux f ((n + 1) / 10) ++ [digitChar ((n + 1) % 10)]

def natDigits (n : Nat) : List Char := natDigitsAux n n

/-- Decimal rendering of a natural number (as `fmt.Sprintf "%d"` / JSON). -/
def renderNat (n : Nat) : List Char := if n = 0 then ['0'] else natDigits n

/-- Decimal rendering of an integer. -/
def renderInt (n : Int) : List Char :=
  if n < 0 then '-' :: renderNat n.natAbs else renderNat n.toNat

/-- JSON string-body escaping (quote and backslash), with the closing
quote appended. -/
def escBody : List Char → List Char
  | [] => ['"']
  | c :: cs => if c = '"' || c = '\\' then '\\' :: c :: escBody cs else c :: escBody cs

mutual
/-- Model of `json.Marshal`: compact rendering of a JSON value. -/
def render : Json → List Char
  | .num n => renderInt n
  | .bool b => if b then "true".toList else "false".toList
  | .null => "null".toList
  | .str s => '"' :: escBody s
  | .arr es => '[' :: renderElems es
  | .obj fs => '{' :: renderFields fs
def renderElems : List Json → List Char
  | [] => [']']
  | e :: es => render e ++ renderElemsRest es
def renderElemsRest : List Json → List Char
  | [] => [']']
  | e :: es => ',' :: (render e ++ renderElemsRest es)
def renderFields : List (List Char × Json) → List Char
  | [] => ['}']
  | (k, v) :: fs => ('"' :: escBody k) ++ ':' :: render v ++ renderFieldsRest fs
def renderFieldsRest : List (List Char × Json) → List Char
  | [] => ['}']
  | (k, v) :: fs => ',' :: (('"' :: escBody k) ++ ':' :: render v ++ renderFieldsRest fs)
end

/-- Value of a digit string, most significant first. -/
def digitsVal (ds : List Char) : Nat :=
  ds.foldl (fun a c => 10 * a + (c.toNat - 48)) 0

/-- Reads a JSON string body (after the opening quote), unescaping.
The boolean flag records a pending backslash escape. -/
def parseStrBodyAux : Bool → List Char → Option (List Char × List Char)
  | _, [] => none
  | true, c :: rest => (parseStrBodyAux false rest).map (fun p => (c :: p.1, p.2))
  | false, c :: rest =>
    if c = '\\' then parseStrBodyAux true rest
    else if c = '"' then some ([], rest)
    else (parseStrBodyAux false rest).map (fun p => (c :: p.1, p.2))

def parseStrBody : List Char → Option (List Char × List Char) := parseStrBodyAux false

/-- Reads a maximal run of decimal digits; fails if there is none. -/
def parsePosNum (input : List Char) : Option (Nat × List Char) :=
  let ds := input.takeWhile isDig
  if ds = [] then none else some (digitsVal ds, input.dropWhile isDig)

/-- Consumes an expected literal character sequence. -/
def expectLit : List Char → List Char → Option (List Char)
  | [], rest => some rest
  | c :: cs, d :: rest => if c = d then expectLit cs rest else none
  | _ :: _, [] => none

mutual
/-- Model of the value reader inside Go's `encoding/json` decoding:
reads one JSON value from the front of the input.  The first argument is
recursion fuel (any value larger than the rendered length suffices). -/
def parseVal : Nat → List Char → Option (Json × List Char)
  | 0, _ => none
  | _ + 1, [] => none
  | f + 1, c :: rest =>
    if c = 'n' then (expectLit ['u', 'l', 'l'] rest).map (fun r => (.null, r))
    else if c = 't' then (expectLit ['r', 'u', 'e'] rest).map (fun r => (.bool true, r))
    else if c = 'f' then (expectLit ['a', 'l', 's', 'e'] rest).map (fun r => (.bool false, r))
    else if c = '"' then (parseStrBody rest).map (fun p => (.str p.1, p.2))
    else if c = '[' then (parseElems f rest).map (fun p => (.arr p.1, p.2))
    else if c = '{' then (parseFields f rest).map (fun p => (.obj p.1, p.2))
    else if c = '-' then (parsePosNum rest).map (fun p => (.num (-(p.1 : Int)), p.2))
    else if isDig c then (parsePosNum (c :: rest)).map (fun p => (.num ((p.1 : Nat) : Int), p.2))
    else none
def parseElems : Nat → List Char → Option (List Json × List Char)
  | 0, _ => none
  | f + 1, input =>
    if input.headD '#' = ']' then some ([], input.tail)
    else
      (parseVal f input).bind (fun p =>
        if p.2.headD '#' = ',' then
          (parseElems f p.2.tail).map (fun q => (p.1 :: q.1, q.2))
        else if p.2.headD '#' = ']' then some ([p.1], p.2.tail)
        else none)
def parseFields : Nat → List Char → Option (List (List Char × Json) × List Char)
  | 0, _ => none
  | f + 1, input =>
    if input.headD '#' = '}' then some ([], input.tail)
    else if input.headD '#' = '"' then
      (parseStrBody input.tail).bind (fun pk =>
        if pk.2.headD '#' = ':' then
          (parseVal f pk.2.tail).bind (fun pv =>
            if pv.2.headD '#' = ',' then
              (parseFields f pv.2.tail).map (fun q => ((pk.1, pv.1) :: q.1, q.2))
            else if pv.2.headD '#' = '}' then some ([(pk.1, pv.1)], pv.2.tail)
            else none)
        else none)
    else none
end

/-- JSON whitespace skipped by Go's decoder between tokens. -/
def skipWs (l : List Char) : List Char := l.dropWhile isSpc

/-- Model of `json.Unmarshal` restricted to well-formedness: the whole
input must be exactly one JSON value (with surrounding whitespace). -/
def jsonUnmarshal (data : List Char) : Option Json :=
  match parseVal (data.length + 1) (skipWs data) with
  | some (v, rest) => if skipWs rest = [] then some v else none
  | none => none

/-- Whether the stream starts with a decimal digit (maximal-munch guard). -/
def headDigit : List Char → Bool
  | [] => false
  | c :: _ => isDig c

/-- Error outcomes of the two `LengthPrefixedCodec.Decode` implementations.
The first five model `src/protocol/codec.go`; the rest model the second
implementation in `src/unnamed/part_004`. -/
inductive DecErr where
  | eofErr
  | unexpectedEof
  | invalidContentLength (value : List Char)
  | missingOrInvalidCL
  | jsonError
  | tooManyHeaders
  | invalidCLEmpty
  | invalidCLValue (value : List Char)
  | missingCL
  | negativeCL (n : Int)
  | bodyReadErr
  | unmarshalErr
  | fuelExhausted
deriving DecidableEq

/-- `bufio.Reader.ReadString('\n')` with a nil error: the prefix up to and
including the first newline, plus the rest; `none` when the stream has no
newline left (in which case codec.go discards the partial data and
returns the read error). -/
def readLine : List Char → Option (List Char × List Char)
  | [] => none
  | c :: rest =>
    if c = '\n' then some ([c], rest)
    else (readLine rest).map (fun p => (c :: p.1, p.2))

/-- `fmt.Sscanf(line, "%s %s", &key, &value)` as used by codec.go: the
first two whitespace-separated tokens when both exist (`n = 2`); any
trailing text on the line is ignored by `Sscanf`. -/
def fields2 (l : List Char) : Option (List Char × List Char) :=
  let l0 := l.dropWhile isSpc
  let t1 := l0.takeWhile (fun c => !isSpc c)
  let r1 := (l0.dropWhile (fun c => !isSpc c)).dropWhile isSpc
  let t2 := r1.takeWhile (fun c => !isSpc c)
  if t1 = [] ∨ t2 = [] then none else some (t1, t2)

/-- `fmt.Sscanf(value, "%d", &n)`: optional sign, then a digit run;
trailing characters after the number are ignored. -/
def sscanfInt : List Char → Option Int
  | [] => none
  | c :: rest =>
    if c = '-' then (parsePosNum rest).map (fun p => -(p.1 : Int))
    else if c = '+' then (parsePosNum rest).map (fun p => (p.1 : Int))
    else (parsePosNum (c :: rest)).map (fun p => (p.1 : Int))

/-- The header loop of `LengthPrefixedCodec.Decode` in
`src/protocol/codec.go` (lines 72-101): read lines until an empty one
(`"\r"` or `""` after stripping the newline); tokenize each line with
`Sscanf "%s %s"`; on key `"Content-Length:"` (compared byte-for-byte,
hence case-SENSITIVELY), parse the value with `Sscanf "%d"`, failing
fatally when that parse fails; otherwise ignore the line.  The
accumulator carries the current `contentLength` value (initially 0).
Fuel decreases every iteration and exceeds the stream length at the
call site, so `fuelExhausted` is unreachable. -/
def v1HeaderLoop : Nat → List Char → Int → Except DecErr (Int × List Char)
  | 0, _, _ => .error .fuelExhausted
  | f + 1, input, cl =>
    match readLine input with
    | none => .error .eofErr
    | some (line, rest) =>
      let l1 := line.dropLast
      if l1 = ['\r'] ∨ l1 = [] then .ok (cl, rest)
      else
        let l2 := if l1.getLast? = some '\r' then l1.dropLast else l1
        match fields2 l2 with
        | none => v1HeaderLoop f rest cl
        | some (key, value) =>
          if key = "Content-Length:".toList then
            match sscanfInt value with
            | none => .error (.invalidContentLength value)
            | some n => v1HeaderLoop f rest n
          else v1HeaderLoop f rest cl

/-- `LengthPrefixedCodec.Decode` from `src/protocol/codec.go`: the header
loop, the `contentLength <= 0` check, `io.ReadFull` (0 bytes read gives
`io.EOF`, a partial read gives `io.ErrUnexpectedEOF`), then
`json.Unmarshal` on exactly the body bytes.  Returns the decoded value
together with the unconsumed remainder of the stream; on error, no value
is produced (the Go target is written only by the final
`json.Unmarshal`). -/
def v1Decode (input : List Char) : Except DecErr (Json × List Char) :=
  match v1HeaderLoop (input.length + 1) input 0 with
  | .error e => .error e
  | .ok (cl, rest) =>
    if cl ≤ 0 then .error .missingOrInvalidCL
    else
      let n := cl.toNat
      if rest.length = 0 then .error .eofErr
      else if rest.length < n then .error .unexpectedEof
      else
        match jsonUnmarshal (rest.take n) with
        | none => .error .jsonError
        | some v => .ok (v, rest.drop n)

/-- The header block emitted by `LengthPrefixedCodec.Encode`:
`"Content-Length: <N>\r\n\r\n"`. -/
def mkHeader (N : Nat) : List Char :=
  "Content-Length: ".toList ++ renderNat N ++ "\r\n\r\n".toList

/-- A length-prefixed frame with declared length `N` and the given body. -/
def mkFrame (N : Nat) (body : List Char) : List Char := mkHeader N ++ body

/-- `LengthPrefixedCodec.Encode` from `src/protocol/codec.go`:
`json.Marshal` the value, then write `"Content-Length: %d\r\n\r\n"`
followed by the body. -/
def v1Encode (v : Json) : List Char := mkFrame (render v).length (render v)

/-- `JSONCodec.Encode`: `json.Encoder.Encode` writes the marshalled value
followed by a newline. -/
def jsonCodecEncode (v : Json) : List Char := render v ++ ['\n']

/-- `JSONCodec.Decode`: `json.Decoder.Decode` reads exactly one JSON value
from the front of the stream (skipping leading whitespace) and leaves the
remainder buffered. -/
def jsonCodecDecode (input : List Char) : Option (Json × List Char) :=
  parseVal (input.length + 1) (skipWs input)

/-- ASCII lower-casing, as used by `strings.EqualFold` on ASCII input. -/
def toLowerAscii (c : Char) : Char :=
  if 'A' ≤ c ∧ c ≤ 'Z' then Char.ofNat (c.toNat + 32) else c

/-- `strings.EqualFold` restricted to ASCII. -/
def eqFold (a b : List Char) : Bool := a.map toLowerAscii == b.map toLowerAscii

/-- `strings.TrimSpace` (ASCII whitespace). -/
def trimSpace (l : List Char) : List Char :=
  ((l.dropWhile isSpc).reverse.dropWhile isSpc).reverse

/-- `strings.TrimSuffix l [c]`: drops a single trailing `c` if present. -/
def trimSuffix1 (c : Char) (l : List Char) : List Char :=
  if l.getLast? = some c then l.dropLast else l

/-- `strings.SplitN(s, ":", 2)`: split at the first colon, when present. -/
def splitColon : List Char → Option (List Char × List Char)
  | [] => none
  | c :: rest =>
    if c = ':' then some ([], rest)
    else (splitColon rest).map (fun p => (c :: p.1, p.2))

/-- Digit-run part of `strconv.Atoi`: all characters must be digits. -/
def atoiDigits (ds : List Char) : Option Nat :=
  if ds ≠ [] ∧ ds.all isDig then some (digitsVal ds) else none

/-- `strconv.Atoi`: optional sign, then only digits; anything else fails. -/
def atoi : List Char → Option Int
  | [] => none
  | c :: rest =>
    if c = '-' then (atoiDigits rest).map (fun n => -(n : Int))
    else if c = '+' then (atoiDigits rest).map (fun n => (n : Int))
    else (atoiDigits (c :: rest)).map (fun n => (n : Int))

/-- `bufio.ReadString('\n')` including the partial-data-at-EOF case
handled by part_004: the data read (newline included when found), the
remaining stream, and whether end-of-input was reached. -/
def readLine2 : List Char → (List Char × List Char × Bool)
  | [] => ([], [], true)
  | c :: rest =>
    if c = '\n' then ([c], rest, false)
    else
      let p := readLine2 rest
      (c :: p.1, p.2.1, p.2.2)

/-- The post-header phase of part_004's `Decode`: `missing Content-Length
header`, `invalid Content-Length: %d` for negative values, a wrapped
`io.ReadFull` error on a short body, then `json.Unmarshal` with a
wrapped error.  `Content-Length: 0` passes the checks and fails only at
the JSON stage (an empty input is never valid JSON). -/
def v2After (found : Bool) (cl : Int) (input : List Char) : Except DecErr (Json × List Char) :=
  if ¬found then .error .missingCL
  else if cl < 0 then .error (.negativeCL cl)
  else
    let n := cl.toNat
    if input.length < n then .error .bodyReadErr
    else
      match jsonUnmarshal (input.take n) with
      | none => .error .unmarshalErr
      | some v => .ok (v, input.drop n)

/-- The header loop of part_004's `Decode`: at most 32 header lines
(`too many header lines`), `SplitN ":" 2` with `TrimSpace` on both
halves, `strings.EqualFold` comparison against `Content-Length`
(case-INSENSITIVE), `strconv.Atoi` on the value, lines without a colon
ignored, and EOF breaking out of the loop after the partial line has
been processed. -/
def v2Loop : Nat → List Char → Int → Bool → Nat → Except DecErr (Json × List Char)
  | 0, _, _, _, _ => .error .fuelExhausted
  | f + 1, input, cl, found, lns =>
    if lns + 1 > 32 then .error .tooManyHeaders
    else
      let r := readLine2 input
      let line := r.1
      let rest := r.2.1
      let eof := r.2.2
      if line = [] then
        (if eof then v2After found cl rest else v2Loop f rest cl found (lns + 1))
      else
        let cur := trimSuffix1 '\r' (trimSuffix1 '\n' line)
        if cur = [] then v2After found cl rest
        else
          match splitColon cur with
          | none => (if eof then v2After found cl rest else v2Loop f rest cl found (lns + 1))
          | some kv =>
            let value := trimSpace kv.2
            if eqFold (trimSpace kv.1) ("Content-Length".toList) then
              if value = [] then .error .invalidCLEmpty
              else
                match atoi value with
                | none => .error (.invalidCLValue value)
                | some n =>
                  (if eof then v2After true n rest else v2Loop f rest n true (lns + 1))
            else (if eof then v2After found cl rest else v2Loop f rest cl found (lns + 1))

/-- `LengthPrefixedCodec.Decode` from `src/unnamed/part_004`
(`contentLength := -1`, `contentLengthHeaderFound := false`,
`maxHeaders := 32`). -/
def v2Decode (input : List Char) : Except DecErr (Json × List Char) :=
  v2Loop (input.length + 1) input (-1) false 0

namespace Protocol

/-- JSON-RPC error codes (src/unnamed/part_002). -/
def ParseError : Int := -32700
def InvalidRequest : Int := -32600
def MethodNotFound : Int := -32601
def InvalidParams : Int := -32602
def InternalError : Int := -32603

/-- protocol.Error: `{code, message, data?}`. -/
structure Error where
  code : Int
  message : List Char
  data : Option Json

/-- protocol.NewError. -/
def NewError (code : Int) (message : List Char) (data : Option Json) : Error :=
  ⟨code, message, data⟩

end Protocol

/-- A Go `error` value as seen by the server loop: either a structured
`*protocol.Error` or any other error, carrying only its message. -/
inductive GoError where
  | protoErr (e : Protocol.Error)
  | strErr (msg : List Char)

/-- The tagged value stored in a `protocol.RequestID`: a JSON string,
number, or explicit null (Go stores `string` / `float64` / `nil`). -/
inductive RequestIDValue where
  | str (s : List Char)
  | num (n : Int)
  | null
deriving DecidableEq

/-- `RequestID.UnmarshalJSON` (src/unnamed/part_002): try to unmarshal
the raw token as a JSON string, then as a JSON number, then compare it
to the literal `null`; every other token shape fails with
`invalid request ID type`.  The argument is the JSON token the raw
bytes parse to. -/
def requestIDUnmarshal : Json → Except (List Char) RequestIDValue
  | .str s => .ok (.str s)
  | .num n => .ok (.num n)
  | .null => .ok .null
  | _ => .error "invalid request ID type".toList

/-- `RequestID.MarshalJSON`: `json.Marshal(r.value)`. -/
def requestIDMarshal : RequestIDValue → Json
  | .str s => .str s
  | .num n => .num n
  | .null => .null

/-- protocol.Content (result content item). -/
structure Content where
  type : List Char
  text : List Char
deriving DecidableEq

/-- protocol.ToolCallResult. -/
structure ToolCallResult where
  content : List Content
  isError : Bool
deriving DecidableEq

/-- runtime.Context (the request-scoped data the router passes to
handlers).  Only the request id is modelled; the mutex-guarded
progress/cancellation fields are concurrency state no claim touches. -/
structure Context where
  requestID : Option RequestIDValue

/-- The tool-handler contract (registry.LegacyToolHandler.Call): context
and raw argument bytes in, `(*ToolCallResult, error)` out. -/
def ToolHandlerFn : Type :=
  Context → Option Json → Option ToolCallResult × Option GoError

/-- registry.ToolDescriptor (handler included, `json:"-"`). -/
structure ToolDescriptor where
  name : List Char
  description : List Char
  inputSchema : Json
  handler : ToolHandlerFn

/-- protocol.ToolDescriptor: the handler-free wire descriptor that
Registry.ListTools builds. -/
structure PToolDescriptor where
  name : List Char
  description : List Char
  inputSchema : Json

/-- registry.Registry, restricted to the tool map (the resource and
prompt maps are not touched by any claim).  Go's
`map[string]*ToolDescriptor` is modelled as an association list with
unique keys, updated in place. -/
structure Registry where
  tools : List (List Char × ToolDescriptor)

/-- Go map assignment `m[k] = v`: replace in place or append. -/
def insertReplace : List (List Char × ToolDescriptor) → List Char → ToolDescriptor →
    List (List Char × ToolDescriptor)
  | [], k, v => [(k, v)]
  | (k1, v1) :: rest, k, v =>
    if k = k1 then (k, v) :: rest else (k1, v1) :: insertReplace rest k v

/-- registry.New(). -/
def Registry.new : Registry := ⟨[]⟩

/-- Registry.RegisterTool: store a descriptor under `name`.  The
reflective JSON-schema generator is outside the verified fragment; the
schema it produced is passed in directly. -/
def Registry.registerTool (r : Registry) (name description : List Char)
    (schema : Json) (handler : ToolHandlerFn) : Registry :=
  ⟨insertReplace r.tools name ⟨name, description, schema, handler⟩⟩

/-- Go map read `v, ok := m[k]`. -/
def lookupKey {α : Type} : List (List Char × α) → List Char → Option α
  | [], _ => none
  | (k1, v1) :: rest, k => if k = k1 then some v1 else lookupKey rest k

/-- Registry.GetTool. -/
def Registry.getTool (r : Registry) (name : List Char) : Option ToolDescriptor :=
  lookupKey r.tools name

def toolDescToProto (t : ToolDescriptor) : PToolDescriptor :=
  ⟨t.name, t.description, t.inputSchema⟩

/-- One admissible result of Registry.ListTools: the catalog in the
association list's own order. -/
def Registry.listToolsCanonical (r : Registry) : List PToolDescriptor :=
  r.tools.map (fun p => toolDescToProto p.2)

/-- Registry.ListTools iterates a Go map (`for _, tool := range r.tools`)
appending one wire descriptor per entry.  The Go language specification
leaves map iteration order unspecified and the runtime deliberately
randomises it, so a list of descriptors is a possible return value of
ListTools exactly when it enumerates the catalog in some order. -/
def ListToolsPossible (r : Registry) (l : List PToolDescriptor) : Prop :=
  l.Perm (Registry.listToolsCanonical r)

/-- protocol.ToolsCapability. -/
structure ToolsCapability where
  listChanged : Bool

/-- protocol.ServerCapabilities (tools capability only; the remaining
optional capability pointers are nil in the router's fixed reply). -/
structure ServerCapabilities where
  tools : Option ToolsCapability

/-- protocol.ServerInfo. -/
structure ServerInfo where
  name : List Char
  version : List Char

/-- protocol.InitializeResult (the Instructions field is omitted by the
router and elided here). -/
structure InitializeResult where
  protocolVersion : List Char
  capabilities : ServerCapabilities
  serverInfo : ServerInfo

/-- protocol.ToolListResult. -/
structure ToolListResult where
  tools : List PToolDescriptor

/-- The values the core handlers return through `interface{}`. -/
inductive ResultValue where
  | initResult (res : InitializeResult)
  | toolList (res : ToolListResult)
  | toolCall (res : ToolCallResult)

/-- The `(interface{}, error)` pair every handler returns. -/
def Outcome : Type := Option ResultValue × Option GoError

/-- runtime.RequestHandler, with an explicit state type `St` threaded
through each invocation so that handler calls are observable: invoking a
handler applies its function to the state exactly once. -/
def RequestHandler (St : Type) : Type :=
  Context → Option Json → St → St × Outcome

/-- runtime.Router: the owning registry plus the method-name table. -/
structure Router (St : Type) where
  registry : Registry
  handlers : List (List Char × RequestHandler St)

/-- Router.Route (runtime/router.go lines 34-41): look the method up in
the table; if absent, return `(nil, MethodNotFound "method not found")`
with no data and invoke nothing; otherwise invoke the matched handler
with `(ctx, params)` and return whatever it returns, unchanged. -/
def Route {St : Type} (r : Router St) (ctx : Context) (method : List Char)
    (params : Option Json) (s : St) : St × Outcome :=
  match lookupKey r.handlers method with
  | none => (s, (none, some (.protoErr (Protocol.NewError Protocol.MethodNotFound
      "method not found".toList none))))
  | some h => h ctx params s

/-- The value of field `k` as Go's decoder leaves it: fields are
processed in input order, a later duplicate overwriting an earlier
one. -/
def objLastLookup (fields : List (List Char × Json)) (k : List Char) : Option Json :=
  fields.foldl (fun acc p => if p.1 = k then some p.2 else acc) none

/-- protocol.ToolCallRequest: `{name, arguments}` with `arguments` a raw
message (`none` = the field was absent, giving a nil RawMessage). -/
structure ToolCallRequest where
  name : List Char
  arguments : Option Json

/-- Field-by-field decoding of a ToolCallRequest from a JSON object, in
input order with abort on the first type error, as Go's decoder does:
`name` must be a JSON string (null leaves the zero value), `arguments`
is a RawMessage capturing any value, unknown fields are ignored. -/
def toolCallFromFields : List (List Char × Json) → ToolCallRequest →
    Except (List Char) ToolCallRequest
  | [], acc => .ok acc
  | (k, v) :: rest, acc =>
    if k = "name".toList then
      match v with
      | .str s => toolCallFromFields rest ⟨s, acc.arguments⟩
      | .null => toolCallFromFields rest acc
      | _ => .error "json: cannot unmarshal value into field name of type string".toList
    else if k = "arguments".toList then
      toolCallFromFields rest ⟨acc.name, some v⟩
    else toolCallFromFields rest acc

/-- `json.Unmarshal(params, &req)` for protocol.ToolCallRequest as
invoked by handleToolsCall: a nil RawMessage (absent params) is empty
input and fails; JSON null leaves the zero value; an object is decoded
field by field; any other JSON shape is a type error. -/
def unmarshalToolCall : Option Json → Except (List Char) ToolCallRequest
  | none => .error "unexpected end of JSON input".toList
  | some .null => .ok ⟨[], none⟩
  | some (.obj fields) => toolCallFromFields fields ⟨[], none⟩
  | some _ => .error "json: cannot unmarshal value into Go value of type protocol.ToolCallRequest".toList

/-- The Go return `tool.Handler.Call(ctx, req.Arguments)` seen at the
router's `(interface{}, error)` type: the identical pair, with the
result widened into the router's result universe. -/
def liftToolOutcome (p : Option ToolCallResult × Option GoError) : Outcome :=
  (p.1.map ResultValue.toolCall, p.2)

/-- Router.handleToolsCall (runtime/router.go lines 70-81): a params
unmarshal failure gives InvalidParams (-32602) carrying the unmarshal
error text as data; an unknown tool name gives MethodNotFound (-32601)
with message `tool <name> not found`; otherwise the tool handler's
result/error pair is returned verbatim. -/
def handleToolsCall (reg : Registry) (ctx : Context) (params : Option Json) : Outcome :=
  match unmarshalToolCall params with
  | .error e =>
    (none, some (.protoErr (Protocol.NewError Protocol.InvalidParams
      "invalid parameters".toList (some (.str e)))))
  | .ok req =>
    match reg.getTool req.name with
    | none =>
      (none, some (.protoErr (Protocol.NewError Protocol.MethodNotFound
        ("tool ".toList ++ req.name ++ " not found".toList) none)))
    | some tool => liftToolOutcome (tool.handler ctx req.arguments)

/-- Router.handleToolsList (runtime/router.go lines 63-68): wrap the
registry's current catalog; never fails.  The canonical enumeration
stands in for one admissible map-iteration order (see
ListToolsPossible). -/
def handleToolsList (reg : Registry) (_ctx : Context) (_params : Option Json) : Outcome :=
  (some (.toolList ⟨Registry.listToolsCanonical reg⟩), none)

/-- `json.Unmarshal(params, &protocol.InitializeRequest)` checked one
level deep: the payload must be absent-and-therefore-invalid, null, or
an object whose `protocolVersion` is a string and whose `capabilities`
and `clientInfo` are objects; deeper capability fields are not exercised
by any claim. -/
def initReqParamsOk : Option Json → Bool
  | none => false
  | some .null => true
  | some (.obj fields) =>
    (match objLastLookup fields "protocolVersion".toList with
     | none => true | some (.str _) => true | some .null => true | some _ => false) &&
    (match objLastLookup fields "capabilities".toList with
     | none => true | some (.obj _) => true | some .null => true | some _ => false) &&
    (match objLastLookup fields "clientInfo".toList with
     | none => true | some (.obj _) => true | some .null => true | some _ => false)
  | some _ => false

/-- Router.handleInitialize (runtime/router.go lines 43-61): InvalidParams
on a parse failure, otherwise the fixed protocol version, tools
capability without list-change notifications, and static server info. -/
def handleInitialize (_reg : Registry) (_ctx : Context) (params : Option Json) : Outcome :=
  if initReqParamsOk params then
    (some (.initResult ⟨"2024-11-05".toList, ⟨some ⟨false⟩⟩,
      ⟨"zenmcp-server".toList, "0.1.0".toList⟩⟩), none)
  else
    (none, some (.protoErr (Protocol.NewError Protocol.InvalidParams
      "invalid parameters".toList (some (.str "unmarshal error".toList)))))

/-- protocol method-name constants (src/unnamed/part_003). -/
def MethodInitialize : List Char := "initialize".toList

def MethodToolsList : List Char := "tools/list".toList

def MethodToolsCall : List Char := "tools/call".toList

/-- Lift a pure core handler into the state-threading handler type: the
core handlers do not touch the observation state. -/
def pureHandler {St : Type} (h : Registry → Context → Option Json → Outcome)
    (reg : Registry) : RequestHandler St :=
  fun ctx params s => (s, h reg ctx params)

/-- NewRouter with registerCoreHandlers (runtime/router.go lines 18-32):
the table holds `initialize`, `tools/list` and `tools/call`. -/
def NewRouter (St : Type) (reg : Registry) : Router St :=
  ⟨reg, [(MethodInitialize, pureHandler handleInitialize reg),
         (MethodToolsList, pureHandler handleToolsList reg),
         (MethodToolsCall, pureHandler handleToolsCall reg)]⟩

/-- The anonymous base struct of processMessage:
`{jsonrpc string; id *RequestID; method string}`.  `id = none` models a
nil pointer (field absent, or JSON null — Go sets a settable pointer to
nil on null without calling UnmarshalJSON). -/
structure Base where
  jsonrpc : List Char
  id : Option RequestIDValue
  method : List Char

/-- Field-by-field decoding of the base struct, in input order with
abort on the first error: `jsonrpc`/`method` must be strings (null is a
no-op), `id` follows RequestID.UnmarshalJSON with the null-pointer rule,
unknown fields are ignored. -/
def baseFromFields : List (List Char × Json) → Base → Except (List Char) Base
  | [], acc => .ok acc
  | (k, v) :: rest, acc =>
    if k = "jsonrpc".toList then
      match v with
      | .str s => baseFromFields rest ⟨s, acc.id, acc.method⟩
      | .null => baseFromFields rest acc
      | _ => .error "json: cannot unmarshal value into field jsonrpc of type string".toList
    else if k = "id".toList then
      match v with
      | .null => baseFromFields rest ⟨acc.jsonrpc, none, acc.method⟩
      | .str s => baseFromFields rest ⟨acc.jsonrpc, some (.str s), acc.method⟩
      | .num n => baseFromFields rest ⟨acc.jsonrpc, some (.num n), acc.method⟩
      | _ => .error "invalid request ID type".toList
    else if k = "method".toList then
      match v with
      | .str s => baseFromFields rest ⟨acc.jsonrpc, acc.id, s⟩
      | .null => baseFromFields rest acc
      | _ => .error "json: cannot unmarshal value into field method of type string".toList
    else baseFromFields rest acc

/-- `json.Unmarshal(msg, &base)` in processMessage: JSON null leaves
the zero struct, an object is decoded field by field, anything else is
a type error. -/
def extractBase : Json → Except (List Char) Base
  | .null => .ok ⟨[], none, []⟩
  | .obj fields => baseFromFields fields ⟨[], none, []⟩
  | _ => .error "json: cannot unmarshal value into Go struct".toList

/-- The `params` RawMessage of the full protocol.Request parse (which
cannot fail once the base parse succeeded: it reads the same fields plus
a RawMessage). -/
def extractParams : Json → Option Json
  | .obj fields => objLastLookup fields "params".toList
  | _ => none

/-- protocol.Response as the server constructs it. -/
structure Response where
  jsonrpc : List Char
  id : Option RequestIDValue
  result : Option ResultValue
  error : Option Protocol.Error

/-- protocol.JSONRPCVersion. -/
def JSONRPCVersion : List Char := "2.0".toList

/-- Server.sendError (mcp/server.go lines 177-188). -/
def sendError (id : Option RequestIDValue) (code : Int) (message : List Char)
    (data : Option Json) : Response :=
  ⟨JSONRPCVersion, id, none, some ⟨code, message, data⟩⟩

/-- Server.processMessage (mcp/server.go lines 138-175): parse the base
envelope (failure: ParseError response with a null id); drop the message
with no response at all when the id pointer is nil (absent or null id);
otherwise build the runtime context, route, and encode either the
structured error, an InternalError wrapper, or the success response.
The returned state exposes handler invocations; the returned list holds
the responses encoded to the codec. -/
def processMessage {St : Type} (router : Router St) (msg : Json) (s : St) :
    St × List Response :=
  match extractBase msg with
  | .error e =>
    (s, [sendError none Protocol.ParseError "parse error".toList (some (.str e))])
  | .ok base =>
    match base.id with
    | none => (s, [])
    | some rid =>
      let ctx : Context := ⟨some rid⟩
      let res := Route router ctx base.method (extractParams msg) s
      match res.2.2 with
      | some (.protoErr e) => (res.1, [sendError (some rid) e.code e.message e.data])
      | some (.strErr m) => (res.1, [sendError (some rid) Protocol.InternalError
          "internal error".toList (some (.str m))])
      | none => (res.1, [⟨JSONRPCVersion, some rid, res.2.1, none⟩])

/-- A handler that counts its invocations in the observation state. -/
def echoHandler : RequestHandler Nat :=
  fun _ _ s => (s + 1, (some (.toolCall ⟨[⟨"text".toList, "echo".toList⟩], false⟩), none))

/-- A router with a single custom handler registered under `"echo"`. -/
def echoRouter : Router Nat := ⟨Registry.new, [("echo".toList, echoHandler)]⟩

/-- The id token shapes the spec declares valid (string, number, null):
the spec-side predicate C8 is checked against. -/
def idShapeAllowedSpec : Json → Bool
  | .str _ => true
  | .num _ => true
  | .null => true
  | _ => false

/-- `n` ignored junk header lines. -/
def junkHeaders (n : Nat) : List Char :=
  (List.replicate n ("X-Junk: 1\r\n".toList)).flatten

/-- A concrete tool handler returning `{content: [{type: "text",
text: "5"}]}`. -/
def addHandler : ToolHandlerFn :=
  fun _ _ => (some ⟨[⟨"text".toList, "5".toList⟩], false⟩, none)

/-- A registry holding only the tool `add`. -/
def addRegistry : Registry :=
  Registry.new.registerTool "add".toList "Adds numbers".toList (.obj []) addHandler

/-- A no-op tool handler used to populate test registries. -/
def nopToolHandler : ToolHandlerFn :=
  fun _ _ => (some ⟨[⟨"text".toList, "ok".toList⟩], false⟩, none)

/-- A registry with one tool registered. -/
def oneToolRegistry : Registry :=
  Registry.new.registerTool "tool1".toList "Tool 1".toList (.obj []) nopToolHandler

/-- A registry with two tools registered. -/
def twoToolRegistry : Registry :=
  oneToolRegistry.registerTool "tool2".toList "Tool 2".toList (.obj []) nopToolHandler

def desc1 : PToolDescriptor := ⟨"tool1".toList, "Tool 1".toList, .obj []⟩

def desc2 : PToolDescriptor := ⟨"tool2".toList, "Tool 2".toList, .obj []⟩

/-- A well-formed request with an explicit `"id": null` and a registered
method. -/
def nullIdMsg : Json :=
  .obj [("jsonrpc".toList, .str "2.0".toList), ("id".toList, .null),
    ("method".toList, .str "initialize".toList)]

/-- A router whose only handler counts its invocations, registered under
`"initialize"` — the method `nullIdMsg` names. -/
def countingRouter : Router Nat :=
  ⟨Registry.new, [("initialize".toList, fun _ _ s => (s + 1, (none, none)))]⟩

/-! ## Theorems -/

theorem takeWhile_append_of_all {p : Char → Bool} :
    ∀ {t r : List Char}, (∀ c ∈ t, p c = true) → (t ++ r).takeWhile p = t ++ r.takeWhile p := by
  intro t
  induction t with
  | nil => intro r _; rfl
  | cons c cs ih =>
    intro r h
    have hc : p c = true := h c (List.mem_cons_self c cs)
    simp [List.takeWhile_cons, hc, ih (fun d hd => h d (List.mem_cons_of_mem c hd))]

theorem dropWhile_append_of_all {p : Char → Bool} :
    ∀ {t r : List Char}, (∀ c ∈ t, p c = true) → (t ++ r).dropWhile p = r.dropWhile p := by
  intro t
  induction t with
  | nil => intro r _; rfl
  | cons c cs ih =>
    intro r h
    have hc : p c = true := h c (List.mem_cons_self c cs)
    simp [List.dropWhile_cons, hc, ih (fun d hd => h d (List.mem_cons_of_mem c hd))]

theorem takeWhile_cons_of_neg {p : Char → Bool} {c : Char} {r : List Char}
    (h : p c = false) : (c :: r).takeWhile p = [] := by
  simp [List.takeWhile_cons, h]

theorem dropWhile_cons_of_neg {p : Char → Bool} {c : Char} {r : List Char}
    (h : p c = false) : (c :: r).dropWhile p = c :: r := by
  simp [List.dropWhile_cons, h]

theorem takeWhile_all {p : Char → Bool} :
    ∀ {t : List Char}, (∀ c ∈ t, p c = true) → t.takeWhile p = t := by
  intro t h
  have := takeWhile_append_of_all (r := []) h
  simpa using this

theorem dropWhile_all {p : Char → Bool} :
    ∀ {t : List Char}, (∀ c ∈ t, p c = true) → t.dropWhile p = [] := by
  intro t h
  have := dropWhile_append_of_all (r := []) h
  simpa using this

theorem digitChar_isDig : ∀ d : Nat, isDig (digitChar d) = true := by
  intro d
  rcases d with _ | _ | _ | _ | _ | _ | _ | _ | _ | d <;> rfl

theorem isDig_spec {c : Char} (h : isDig c = true) :
    c = '0' ∨ c = '1' ∨ c = '2' ∨ c = '3' ∨ c = '4' ∨
    c = '5' ∨ c = '6' ∨ c = '7' ∨ c = '8' ∨ c = '9' := by
  simp [isDig] at h
  tauto

theorem isDig_not_special {c : Char} (h : isDig c = true) :
    c ≠ 'n' ∧ c ≠ 't' ∧ c ≠ 'f' ∧ c ≠ '"' ∧ c ≠ '[' ∧ c ≠ '{' ∧ c ≠ '-' ∧
    c ≠ ']' ∧ c ≠ ',' ∧ c ≠ '}' ∧ c ≠ ':' ∧ isSpc c = false ∧ c ≠ '\n' ∧ c ≠ '\r' := by
  rcases isDig_spec h with rfl | rfl | rfl | rfl | rfl | rfl | rfl | rfl | rfl | rfl <;> decide

theorem natDigitsAux_all_dig :
    ∀ (f n : Nat), ∀ c ∈ natDigitsAux f n, isDig c = true := by
  intro f
  induction f with
  | zero => intro n c hc; simp [natDigitsAux] at hc
  | succ f ih =>
    intro n c hc
    match n with
    | 0 => simp [natDigitsAux] at hc
    | n + 1 =>
      simp only [natDigitsAux, List.mem_append, List.mem_singleton] at hc
      rcases hc with hc | rfl
      · exact ih _ c hc
      · exact digitChar_isDig _

theorem natDigits_all_dig (n : Nat) : ∀ c ∈ natDigits n, isDig c = true :=
  natDigitsAux_all_dig n n

theorem renderNat_all_dig (n : Nat) : ∀ c ∈ renderNat n, isDig c = true := by
  intro c hc
  unfold renderNat at hc
  split at hc
  · simp at hc; subst hc; rfl
  · exact natDigits_all_dig n c hc

theorem natDigitsAux_ne_nil (f n : Nat) (hn : n ≠ 0) (hf : f ≠ 0) :
    natDigitsAux f n ≠ [] := by
  match f, n with
  | 0, _ => exact absurd rfl hf
  | f + 1, 0 => exact absurd rfl hn
  | f + 1, n + 1 => simp [natDigitsAux]

theorem renderNat_ne_nil (n : Nat) : renderNat n ≠ [] := by
  unfold renderNat
  split
  · simp
  · exact natDigitsAux_ne_nil n n (by assumption) (by assumption)

theorem digitChar_val {d : Nat} (h : d < 10) : (digitChar d).toNat - 48 = d := by
  interval_cases d <;> rfl

theorem digitsVal_append_digit (ds : List Char) (c : Char) :
    digitsVal (ds ++ [c]) = 10 * digitsVal ds + (c.toNat - 48) := by
  simp [digitsVal, List.foldl_append]

theorem digitsVal_natDigitsAux :
    ∀ (f n : Nat), n ≤ f → digitsVal (natDigitsAux f n) = n := by
  intro f
  induction f with
  | zero =>
    intro n hn
    interval_cases n
    rfl
  | succ f ih =>
    intro n hn
    match n with
    | 0 => rfl
    | n + 1 =>
      have hdiv : (n + 1) / 10 ≤ f := by
        have := Nat.div_le_self (n + 1) 10
        have h10 : (n + 1) / 10 < n + 1 := Nat.div_lt_self (by omega) (by omega)
        omega
      simp only [natDigitsAux, digitsVal_append_digit, ih _ hdiv,
        digitChar_val (Nat.mod_lt _ (by omega))]
      omega

theorem digitsVal_renderNat (n : Nat) : digitsVal (renderNat n) = n := by
  unfold renderNat
  split
  · subst n; rfl
  · exact digitsVal_natDigitsAux n n le_rfl

theorem parsePosNum_renderNat (n : Nat) (rest : List Char) (h : headDigit rest = false) :
    parsePosNum (renderNat n ++ rest) = some (n, rest) := by
  have hall := renderNat_all_dig n
  have htake : (renderNat n ++ rest).takeWhile isDig = renderNat n ++ rest.takeWhile isDig :=
    takeWhile_append_of_all hall
  have hdrop : (renderNat n ++ rest).dropWhile isDig = rest.dropWhile isDig :=
    dropWhile_append_of_all hall
  have hrtake : rest.takeWhile isDig = [] := by
    cases rest with
    | nil => rfl
    | cons c cs => exact takeWhile_cons_of_neg (by simpa [headDigit] using h)
  have hrdrop : rest.dropWhile isDig = rest := by
    cases rest with
    | nil => rfl
    | cons c cs => exact dropWhile_cons_of_neg (by simpa [headDigit] using h)
  unfold parsePosNum
  simp only [htake, hdrop, hrtake, hrdrop, List.append_nil]
  rw [if_neg (renderNat_ne_nil n), digitsVal_renderNat]

theorem escBody_cons (c : Char) (cs : List Char) :
    escBody (c :: cs) =
      if c = '"' || c = '\\' then '\\' :: c :: escBody cs else c :: escBody cs := rfl

theorem parseStrBody_other {c : Char} (rest : List Char) (h1 : c ≠ '\\') (h2 : c ≠ '"') :
    parseStrBody (c :: rest) = (parseStrBody rest).map (fun p => (c :: p.1, p.2)) := by
  show parseStrBodyAux false (c :: rest) = _
  simp only [parseStrBodyAux]
  rw [if_neg h1, if_neg h2]
  rfl

theorem parseStrBody_escBody : ∀ (s rest : List Char),
    parseStrBody (escBody s ++ rest) = some (s, rest) := by
  intro s
  induction s with
  | nil => intro rest; rfl
  | cons c cs ih =>
    intro rest
    by_cases hc : c = '"' ∨ c = '\\'
    · have hesc : escBody (c :: cs) = '\\' :: c :: escBody cs := by
        rw [escBody_cons, if_pos (by rcases hc with rfl | rfl <;> simp)]
      rw [hesc, List.cons_append, List.cons_append]
      show (parseStrBody (escBody cs ++ rest)).map (fun p => (c :: p.1, p.2)) = _
      rw [ih rest]
      rfl
    · push_neg at hc
      have hesc : escBody (c :: cs) = c :: escBody cs := by
        rw [escBody_cons, if_neg (by simp [hc.1, hc.2])]
      rw [hesc, List.cons_append, parseStrBody_other _ hc.2 hc.1, ih rest]
      rfl

theorem renderNat_cons (n : Nat) :
    ∃ d ds, renderNat n = d :: ds ∧ isDig d = true := by
  cases hrn : renderNat n with
  | nil => exact absurd hrn (renderNat_ne_nil n)
  | cons d ds =>
    refine ⟨d, ds, rfl, ?_⟩
    exact renderNat_all_dig n d (by rw [hrn]; exact List.mem_cons_self d ds)

/-- The first character of any rendered JSON value. -/
theorem render_cons (v : Json) :
    ∃ c cs, render v = c :: cs ∧
      (c = 'n' ∨ c = 't' ∨ c = 'f' ∨ c = '"' ∨ c = '[' ∨ c = '{' ∨ c = '-' ∨ isDig c = true) := by
  cases v with
  | null => exact ⟨'n', _, rfl, by simp⟩
  | bool b =>
    cases b with
    | false => exact ⟨'f', _, rfl, by simp⟩
    | true => exact ⟨'t', _, rfl, by simp⟩
  | num n =>
    by_cases hn : n < 0
    · exact ⟨'-', renderNat n.natAbs, by simp [render, renderInt, hn], by simp⟩
    · obtain ⟨d, ds, hd, hdig⟩ := renderNat_cons n.toNat
      exact ⟨d, ds, by simp [render, renderInt, hn, hd], by tauto⟩
  | str s => exact ⟨'"', _, rfl, by simp⟩
  | arr es => exact ⟨'[', _, rfl, by simp⟩
  | obj fs => exact ⟨'{', _, rfl, by simp⟩

theorem render_head_facts {c : Char}
    (h : c = 'n' ∨ c = 't' ∨ c = 'f' ∨ c = '"' ∨ c = '[' ∨ c = '{' ∨ c = '-' ∨ isDig c = true) :
    c ≠ ']' ∧ c ≠ '}' ∧ c ≠ ',' ∧ c ≠ ':' ∧ isSpc c = false := by
  rcases h with rfl | rfl | rfl | rfl | rfl | rfl | rfl | hd
  any_goals decide
  have := isDig_not_special hd
  tauto

theorem render_length_pos (v : Json) : 0 < (render v).length := by
  obtain ⟨c, cs, hc, _⟩ := render_cons v
  simp [hc]

theorem renderElems_length_pos (es : List Json) : 0 < (renderElems es).length := by
  cases es with
  | nil => simp [renderElems]
  | cons e es2 => simp [renderElems]; have := render_length_pos e; omega

theorem renderElemsRest_length_pos (es : List Json) : 0 < (renderElemsRest es).length := by
  cases es <;> simp [renderElemsRest]

theorem renderFields_length_pos (fs : List (List Char × Json)) :
    0 < (renderFields fs).length := by
  cases fs with
  | nil => simp [renderFields]
  | cons kv fs2 => obtain ⟨k, v⟩ := kv; simp [renderFields]

theorem renderFieldsRest_length_pos (fs : List (List Char × Json)) :
    0 < (renderFieldsRest fs).length := by
  cases fs with
  | nil => simp [renderFieldsRest]
  | cons kv fs2 => obtain ⟨k, v⟩ := kv; simp [renderFieldsRest]

theorem escBody_length_pos (s : List Char) : 0 < (escBody s).length := by
  cases s with
  | nil => simp [escBody]
  | cons c cs => unfold escBody; split <;> simp

theorem parseVal_cons (f : Nat) (c : Char) (rest : List Char) :
    parseVal (f + 1) (c :: rest) =
      if c = 'n' then (expectLit ['u', 'l', 'l'] rest).map (fun r => (Json.null, r))
      else if c = 't' then (expectLit ['r', 'u', 'e'] rest).map (fun r => (Json.bool true, r))
      else if c = 'f' then (expectLit ['a', 'l', 's', 'e'] rest).map (fun r => (Json.bool false, r))
      else if c = '"' then (parseStrBody rest).map (fun p => (Json.str p.1, p.2))
      else if c = '[' then (parseElems f rest).map (fun p => (Json.arr p.1, p.2))
      else if c = '{' then (parseFields f rest).map (fun p => (Json.obj p.1, p.2))
      else if c = '-' then (parsePosNum rest).map (fun p => (Json.num (-(p.1 : Int)), p.2))
      else if isDig c then (parsePosNum (c :: rest)).map (fun p => (Json.num ((p.1 : Nat) : Int), p.2))
      else none := rfl

theorem parseElems_succ (f : Nat) (input : List Char) :
    parseElems (f + 1) input =
      if input.headD '#' = ']' then some ([], input.tail)
      else
        (parseVal f input).bind (fun p =>
          if p.2.headD '#' = ',' then
            (parseElems f p.2.tail).map (fun q => (p.1 :: q.1, q.2))
          else if p.2.headD '#' = ']' then some ([p.1], p.2.tail)
          else none) := rfl

theorem parseFields_succ (f : Nat) (input : List Char) :
    parseFields (f + 1) input =
      if input.headD '#' = '}' then some ([], input.tail)
      else if input.headD '#' = '"' then
        (parseStrBody input.tail).bind (fun pk =>
          if pk.2.headD '#' = ':' then
            (parseVal f pk.2.tail).bind (fun pv =>
              if pv.2.headD '#' = ',' then
                (parseFields f pv.2.tail).map (fun q => ((pk.1, pv.1) :: q.1, q.2))
              else if pv.2.headD '#' = '}' then some ([(pk.1, pv.1)], pv.2.tail)
              else none)
          else none)
      else none := rfl

theorem renderElemsRest_cons_length (e : Json) (es : List Json) :
    (renderElemsRest (e :: es)).length = (renderElems (e :: es)).length + 1 := by
  simp [renderElemsRest, renderElems]

theorem renderFieldsRest_cons_length (kv : List Char × Json) (fs : List (List Char × Json)) :
    (renderFieldsRest (kv :: fs)).length = (renderFields (kv :: fs)).length + 1 := by
  obtain ⟨k, v⟩ := kv
  simp [renderFieldsRest, renderFields]

theorem headDigit_renderElemsRest (es : List Json) (rest : List Char) :
    headDigit (renderElemsRest es ++ rest) = false := by
  cases es <;> rfl

theorem headDigit_renderFieldsRest (fs : List (List Char × Json)) (rest : List Char) :
    headDigit (renderFieldsRest fs ++ rest) = false := by
  cases fs with
  | nil => rfl
  | cons kv fs2 => obtain ⟨k, v⟩ := kv; rfl

/-- The JSON reader inverts the JSON renderer, given enough fuel and a
continuation that does not begin with a digit. -/
theorem parse_render_spec : ∀ f : Nat,
    (∀ v rest, (render v).length < f → headDigit rest = false →
      parseVal f (render v ++ rest) = some (v, rest)) ∧
    (∀ es rest, (renderElems es).length < f →
      parseElems f (renderElems es ++ rest) = some (es, rest)) ∧
    (∀ fs rest, (renderFields fs).length < f →
      parseFields f (renderFields fs ++ rest) = some (fs, rest)) := by
  intro f
  induction f with
  | zero =>
    exact ⟨fun v rest h _ => absurd h (by omega), fun es rest h => absurd h (by omega),
      fun fs rest h => absurd h (by omega)⟩
  | succ f ih =>
    obtain ⟨ihV, ihE, ihF⟩ := ih
    refine ⟨?_, ?_, ?_⟩
    · intro v rest hlen hrest
      cases v with
      | null => rfl
      | bool b => cases b <;> rfl
      | str s =>
        show (parseStrBody (escBody s ++ rest)).map (fun p => (Json.str p.1, p.2)) =
          some (Json.str s, rest)
        rw [parseStrBody_escBody]
        rfl
      | num n =>
        by_cases hn : n < 0
        · have hr : render (Json.num n) = '-' :: renderNat n.natAbs := by
            simp [render, renderInt, hn]
          rw [hr, List.cons_append]
          show (parsePosNum (renderNat n.natAbs ++ rest)).map
            (fun p => (Json.num (-(p.1 : Int)), p.2)) = some (Json.num n, rest)
          rw [parsePosNum_renderNat _ _ hrest]
          show some (Json.num (-((n.natAbs : Nat) : Int)), rest) = some (Json.num n, rest)
          rw [show (-((n.natAbs : Nat) : Int)) = n by omega]
        · have hr : render (Json.num n) = renderNat n.toNat := by
            simp [render, renderInt, hn]
          obtain ⟨d, ds, hd, hdig⟩ := renderNat_cons n.toNat
          obtain ⟨g1, g2, g3, g4, g5, g6, g7, _, _, _, _, _, _, _⟩ := isDig_not_special hdig
          rw [hr, hd, List.cons_append, parseVal_cons, if_neg g1, if_neg g2, if_neg g3,
            if_neg g4, if_neg g5, if_neg g6, if_neg g7, if_pos hdig, ← List.cons_append, ← hd,
            parsePosNum_renderNat _ _ hrest]
          show some (Json.num ((n.toNat : Nat) : Int), rest) = some (Json.num n, rest)
          rw [show ((n.toNat : Nat) : Int) = n by omega]
      | arr es =>
        show (parseElems f (renderElems es ++ rest)).map (fun p => (Json.arr p.1, p.2)) =
          some (Json.arr es, rest)
        have hb : (renderElems es).length < f := by
          have h1 : (render (Json.arr es)).length = (renderElems es).length + 1 := by
            simp [render]
          omega
        rw [ihE es rest hb]
        rfl
      | obj fs =>
        show (parseFields f (renderFields fs ++ rest)).map (fun p => (Json.obj p.1, p.2)) =
          some (Json.obj fs, rest)
        have hb : (renderFields fs).length < f := by
          have h1 : (render (Json.obj fs)).length = (renderFields fs).length + 1 := by
            simp [render]
          omega
        rw [ihF fs rest hb]
        rfl
    · intro es rest hlen
      cases es with
      | nil => rfl
      | cons e es2 =>
        obtain ⟨c, cs, hc, hcset⟩ := render_cons e
        obtain ⟨hne1, hne2, hne3, hne4, hne5⟩ := render_head_facts hcset
        have hshape : renderElems (e :: es2) ++ rest =
            render e ++ (renderElemsRest es2 ++ rest) := by
          simp [renderElems]
        have hlen2 : (render e).length + (renderElemsRest es2).length =
            (renderElems (e :: es2)).length := by
          simp [renderElems]
        have hbv : (render e).length < f := by
          have := renderElemsRest_length_pos es2
          omega
        have hhead : (render e ++ (renderElemsRest es2 ++ rest)).headD '#' = c := by
          rw [hc]; rfl
        rw [hshape, parseElems_succ, hhead, if_neg hne1,
          ihV e (renderElemsRest es2 ++ rest) hbv (headDigit_renderElemsRest es2 rest)]
        cases es2 with
        | nil => rfl
        | cons e2 es3 =>
          show (parseElems f (renderElems (e2 :: es3) ++ rest)).map
            (fun q => (e :: q.1, q.2)) = some (e :: e2 :: es3, rest)
          have hb2 : (renderElems (e2 :: es3)).length < f := by
            have h1 := renderElemsRest_cons_length e2 es3
            have h2 := render_length_pos e
            omega
          rw [ihE (e2 :: es3) rest hb2]
          rfl
    · intro fs rest hlen
      cases fs with
      | nil => rfl
      | cons kv fs2 =>
        obtain ⟨k, v⟩ := kv
        have hshape : renderFields ((k, v) :: fs2) ++ rest =
            '"' :: (escBody k ++ (':' :: (render v ++ (renderFieldsRest fs2 ++ rest)))) := by
          simp [renderFields]
        have hlen2 : (renderFields ((k, v) :: fs2)).length =
            1 + (escBody k).length + 1 + (render v).length + (renderFieldsRest fs2).length := by
          simp [renderFields]
          omega
        have hbv : (render v).length < f := by
          have h1 := escBody_length_pos k
          have h2 := renderFieldsRest_length_pos fs2
          omega
        rw [hshape, parseFields_succ]
        show (parseStrBody (escBody k ++ (':' :: (render v ++ (renderFieldsRest fs2 ++ rest))))).bind
          _ = some ((k, v) :: fs2, rest)
        rw [parseStrBody_escBody]
        show (parseVal f (render v ++ (renderFieldsRest fs2 ++ rest))).bind _ =
          some ((k, v) :: fs2, rest)
        rw [ihV v (renderFieldsRest fs2 ++ rest) hbv (headDigit_renderFieldsRest fs2 rest)]
        cases fs2 with
        | nil => rfl
        | cons kv2 fs3 =>
          obtain ⟨k2, v2⟩ := kv2
          show (parseFields f (renderFields ((k2, v2) :: fs3) ++ rest)).map
            (fun q => ((k, v) :: q.1, q.2)) = some ((k, v) :: (k2, v2) :: fs3, rest)
          have hb2 : (renderFields ((k2, v2) :: fs3)).length < f := by
            have h1 := renderFieldsRest_cons_length (k2, v2) fs3
            have h2 := escBody_length_pos k
            omega
          rw [ihF ((k2, v2) :: fs3) rest hb2]
          rfl

theorem parseVal_render_append (v : Json) (rest : List Char) (f : Nat)
    (hf : (render v).length < f) (h : headDigit rest = false) :
    parseVal f (render v ++ rest) = some (v, rest) :=
  (parse_render_spec f).1 v rest hf h

theorem render_head_not_spc (v : Json) (rest : List Char) :
    skipWs (render v ++ rest) = render v ++ rest := by
  obtain ⟨c, cs, hc, hset⟩ := render_cons v
  obtain ⟨_, _, _, _, h5⟩ := render_head_facts hset
  rw [hc, List.cons_append]
  exact dropWhile_cons_of_neg h5

theorem jsonUnmarshal_render (v : Json) : jsonUnmarshal (render v) = some v := by
  unfold jsonUnmarshal
  have h0 : skipWs (render v) = render v := by
    have := render_head_not_spc v []
    simpa using this
  rw [h0]
  have h1 : parseVal ((render v).length + 1) (render v) = some (v, []) := by
    have := parseVal_render_append v [] ((render v).length + 1) (by omega) rfl
    simpa using this
  rw [h1]
  rfl

theorem readLine_cons (c : Char) (rest : List Char) :
    readLine (c :: rest) =
      if c = '\n' then some ([c], rest)
      else (readLine rest).map (fun p => (c :: p.1, p.2)) := rfl

theorem readLine_append (L R : List Char) (h : '\n' ∉ L) :
    readLine (L ++ '\n' :: R) = some (L ++ ['\n'], R) := by
  induction L with
  | nil => rfl
  | cons c cs ih =>
    have hc : c ≠ '\n' := fun hh => h (hh ▸ List.mem_cons_self c cs)
    rw [List.cons_append, readLine_cons, if_neg hc,
      ih (fun hm => h (List.mem_cons_of_mem c hm))]
    rfl

theorem isDig_ne_plus {c : Char} (h : isDig c = true) : c ≠ '+' := by
  rcases isDig_spec h with rfl | rfl | rfl | rfl | rfl | rfl | rfl | rfl | rfl | rfl <;> decide

theorem fields2_spec (t1 t2 : List Char) (h1 : t1 ≠ []) (h2 : t2 ≠ [])
    (a1 : ∀ c ∈ t1, isSpc c = false) (a2 : ∀ c ∈ t2, isSpc c = false) :
    fields2 (t1 ++ ' ' :: t2) = some (t1, t2) := by
  have b1 : ∀ c ∈ t1, (!isSpc c) = true := fun c hc => by rw [a1 c hc]; rfl
  have b2 : ∀ c ∈ t2, (!isSpc c) = true := fun c hc => by rw [a2 c hc]; rfl
  have hl0 : (t1 ++ ' ' :: t2).dropWhile isSpc = t1 ++ ' ' :: t2 := by
    cases t1 with
    | nil => exact absurd rfl h1
    | cons c cs =>
      rw [List.cons_append]
      exact dropWhile_cons_of_neg (a1 c (List.mem_cons_self c cs))
  have ht1 : (t1 ++ ' ' :: t2).takeWhile (fun c => !isSpc c) = t1 := by
    rw [takeWhile_append_of_all b1, takeWhile_cons_of_neg (by rfl)]
    simp
  have hd1 : (t1 ++ ' ' :: t2).dropWhile (fun c => !isSpc c) = ' ' :: t2 := by
    rw [dropWhile_append_of_all b1]
    exact dropWhile_cons_of_neg (by rfl)
  have hr1 : (' ' :: t2).dropWhile isSpc = t2 := by
    have hstep : (' ' :: t2).dropWhile isSpc = t2.dropWhile isSpc := rfl
    rw [hstep]
    cases t2 with
    | nil => exact absurd rfl h2
    | cons c cs => exact dropWhile_cons_of_neg (a2 c (List.mem_cons_self c cs))
  have ht2 : t2.takeWhile (fun c => !isSpc c) = t2 := takeWhile_all b2
  simp only [fields2, hl0, ht1, hd1, hr1, ht2]
  simp [h1, h2]

theorem sscanfInt_cons (c : Char) (rest : List Char) :
    sscanfInt (c :: rest) =
      if c = '-' then (parsePosNum rest).map (fun p => -(p.1 : Int))
      else if c = '+' then (parsePosNum rest).map (fun p => (p.1 : Int))
      else (parsePosNum (c :: rest)).map (fun p => (p.1 : Int)) := rfl

theorem parsePosNum_renderNat_nil (N : Nat) : parsePosNum (renderNat N) = some (N, []) := by
  have := parsePosNum_renderNat N [] rfl
  simpa using this

theorem sscanfInt_renderNat (N : Nat) : sscanfInt (renderNat N) = some (N : Int) := by
  obtain ⟨d, ds, hd, hdig⟩ := renderNat_cons N
  obtain ⟨_, _, _, _, _, _, hminus, _, _, _, _, _, _, _⟩ := isDig_not_special hdig
  rw [hd, sscanfInt_cons, if_neg hminus, if_neg (isDig_ne_plus hdig), ← hd,
    parsePosNum_renderNat_nil]
  rfl

theorem renderNat_not_spc (N : Nat) : ∀ c ∈ renderNat N, isSpc c = false := by
  intro c hc
  exact (isDig_not_special (renderNat_all_dig N c hc)).2.2.2.2.2.2.2.2.2.2.2.1

theorem renderNat_no_nl (N : Nat) : '\n' ∉ renderNat N := by
  intro hm
  exact (isDig_not_special (renderNat_all_dig N _ hm)).2.2.2.2.2.2.2.2.2.2.2.2.1 rfl

/-- Decoding the header block `"Content-Length: <N>\r\n\r\n"` under the
codec.go header loop: seen on an exactly-encoded frame, the loop reads
the Content-Length line, records `N`, reads the empty line, and stops. -/
theorem v1HeaderLoop_frame (f : Nat) (N : Nat) (body : List Char) (cl : Int) :
    v1HeaderLoop (f + 1 + 1) (mkFrame N body) cl = .ok ((N : Int), body) := by
  have hshape : mkFrame N body =
      ("Content-Length: ".toList ++ renderNat N ++ ['\r']) ++ '\n' :: ('\r' :: '\n' :: body) := by
    simp [mkFrame, mkHeader, show ("\r\n\r\n".toList = ['\r', '\n', '\r', '\n']) from rfl]
  have hnoNL : '\n' ∉ "Content-Length: ".toList ++ renderNat N ++ ['\r'] := by
    intro hm
    rcases List.mem_append.mp hm with hm1 | hm2
    · rcases List.mem_append.mp hm1 with hma | hmb
      · exact absurd hma (by decide)
      · exact renderNat_no_nl N hmb
    · simp at hm2
  have hread1 := readLine_append _ ('\r' :: '\n' :: body) hnoNL
  have hdl1 : (("Content-Length: ".toList ++ renderNat N ++ ['\r']) ++ ['\n']).dropLast =
      "Content-Length: ".toList ++ renderNat N ++ ['\r'] := List.dropLast_concat
  have hne : ¬("Content-Length: ".toList ++ renderNat N ++ ['\r'] = ['\r'] ∨
      "Content-Length: ".toList ++ renderNat N ++ ['\r'] = []) := by
    intro hh
    have hlen : ("Content-Length: ".toList ++ renderNat N ++ ['\r']).length =
        17 + (renderNat N).length := by
      simp
      omega
    rcases hh with h | h <;> rw [h] at hlen <;>
      simp only [List.length_singleton, List.length_nil] at hlen <;> omega
  have hlast : ("Content-Length: ".toList ++ renderNat N ++ ['\r']).getLast? = some '\r' :=
    List.getLast?_concat _
  have hdl2 : ("Content-Length: ".toList ++ renderNat N ++ ['\r']).dropLast =
      "Content-Length:".toList ++ ' ' :: renderNat N := by
    rw [List.dropLast_concat]
    rfl
  have hf2 : fields2 ("Content-Length:".toList ++ ' ' :: renderNat N) =
      some ("Content-Length:".toList, renderNat N) :=
    fields2_spec _ _ (by decide) (renderNat_ne_nil N) (by decide) (renderNat_not_spc N)
  have hread2 : readLine ('\r' :: '\n' :: body) = some (['\r', '\n'], body) := rfl
  rw [hshape]
  simp only [v1HeaderLoop, hread1, hdl1, hne, if_false, hlast, if_pos, hdl2, hf2,
    sscanfInt_renderNat, if_pos rfl, hread2]
  simp

theorem v1HeaderLoop_frame_fuel (fuel N : Nat) (body : List Char) (cl : Int)
    (h : 2 ≤ fuel) :
    v1HeaderLoop fuel (mkFrame N body) cl = .ok ((N : Int), body) := by
  obtain ⟨f, rfl⟩ : ∃ f, fuel = f + 1 + 1 := ⟨fuel - 2, by omega⟩
  exact v1HeaderLoop_frame f N body cl

theorem mkFrame_length (N : Nat) (body : List Char) :
    (mkFrame N body).length = 20 + (renderNat N).length + body.length := by
  have h16 : ("Content-Length: ".toList).length = 16 := rfl
  have h4 : ("\r\n\r\n".toList).length = 4 := rfl
  simp [mkFrame, mkHeader, h16, h4]
  omega

/-- Behaviour of codec.go `Decode` on any exactly-framed input: the header
loop always succeeds with content length `N`, after which the body checks
decide the outcome. -/
theorem v1Decode_mkFrame (N : Nat) (body : List Char) :
    v1Decode (mkFrame N body) =
      if (N : Int) ≤ 0 then .error .missingOrInvalidCL
      else if body.length = 0 then .error .eofErr
      else if body.length < N then .error .unexpectedEof
      else match jsonUnmarshal (body.take N) with
        | none => .error .jsonError
        | some v => .ok (v, body.drop N) := by
  unfold v1Decode
  rw [v1HeaderLoop_frame_fuel _ N body 0 (by rw [mkFrame_length]; omega)]
  simp [Int.toNat_natCast]

/-- Round trip through the length-prefixed codec of codec.go. -/
theorem v1Decode_v1Encode (v : Json) : v1Decode (v1Encode v) = .ok (v, []) := by
  have hpos := render_length_pos v
  unfold v1Encode
  rw [v1Decode_mkFrame, if_neg (by omega : ¬((render v).length : Int) ≤ 0),
    if_neg (by omega : ¬(render v).length = 0),
    if_neg (by omega : ¬(render v).length < (render v).length),
    List.take_length, jsonUnmarshal_render, List.drop_length]

/-- Round trip through the raw-JSON codec (JSONCodec): decoding consumes
the value and leaves the encoder's trailing newline in the stream. -/
theorem jsonCodec_roundtrip (v : Json) :
    jsonCodecDecode (jsonCodecEncode v) = some (v, ['\n']) := by
  unfold jsonCodecDecode jsonCodecEncode
  rw [render_head_not_spc v ['\n']]
  refine parseVal_render_append v ['\n'] _ ?_ rfl
  simp
  omega

/-- Claim C1: Router.Route dispatch correctness — when a handler is
registered under the requested method name, Route invokes exactly that
handler exactly once (its outcome, including the state transformation of
the single invocation, is returned unchanged); when the method is absent
from the table, Route invokes no handler (the state is untouched) and
returns no result with the MethodNotFound (-32601) error
`method not found` carrying no data. -/
theorem route_dispatch_correct {St : Type} (r : Router St) (ctx : Context)
    (method : List Char) (params : Option Json) (s : St) :
    (∀ h : RequestHandler St, lookupKey r.handlers method = some h →
      Route r ctx method params s = h ctx params s) ∧
    (lookupKey r.handlers method = none →
      Route r ctx method params s =
        (s, (none, some (.protoErr ⟨Protocol.MethodNotFound,
          "method not found".toList, none⟩))) ∧
      Protocol.MethodNotFound = -32601) := by
  constructor
  · intro h hh
    unfold Route
    rw [hh]
  · intro hh
    unfold Route
    rw [hh]
    exact ⟨rfl, rfl⟩

/-- Witness for C1 at a concrete router: routing `"echo"` performs the
one registered invocation (count 0 becomes 1) and returns the handler's
pair; routing `"unknown"` leaves the count at 0 and yields the
MethodNotFound error. -/
theorem route_dispatch_correct_witness :
    Route echoRouter ⟨none⟩ "echo".toList none 0 =
      (1, (some (.toolCall ⟨[⟨"text".toList, "echo".toList⟩], false⟩), none)) ∧
    Route echoRouter ⟨none⟩ "unknown".toList none 0 =
      (0, (none, some (.protoErr ⟨Protocol.MethodNotFound,
        "method not found".toList, none⟩))) := by
  constructor
  · exact (route_dispatch_correct echoRouter ⟨none⟩ "echo".toList none 0).1 echoHandler rfl
  · exact ((route_dispatch_correct echoRouter ⟨none⟩ "unknown".toList none 0).2 rfl).1

/-- Claim C2: codec round-trip — for every JSON value `v` (the model of
JSON-serializable Go values, covering null, booleans, numbers, strings
and arbitrarily shaped arrays/objects), decoding the byte stream
produced by Encode yields `v` unchanged under both framing schemes: the
length-prefixed codec returns `v` with the frame fully consumed, and the
raw-JSON codec (JSONCodec) returns `v` leaving only the encoder's
trailing newline buffered; RequestID values (string-, number- and
null-valued) round-trip through their MarshalJSON/UnmarshalJSON pair. -/
theorem codec_roundtrip :
    (∀ v : Json, v1Decode (v1Encode v) = .ok (v, []) ∧
      jsonCodecDecode (jsonCodecEncode v) = some (v, ['\n'])) ∧
    (∀ rid : RequestIDValue, requestIDUnmarshal (requestIDMarshal rid) = .ok rid) := by
  constructor
  · intro v
    exact ⟨v1Decode_v1Encode v, jsonCodec_roundtrip v⟩
  · intro rid
    cases rid <;> rfl

/-- Claim C8: RequestID.UnmarshalJSON classifies the underlying JSON
token type — it succeeds exactly on JSON strings, numbers and the
literal null (storing the corresponding tagged value) and fails with the
type error `invalid request ID type` on booleans, arrays and objects. -/
theorem request_id_shape_classification :
    (∀ j : Json, (requestIDUnmarshal j).isOk = idShapeAllowedSpec j) ∧
    (∀ s, requestIDUnmarshal (.str s) = .ok (.str s)) ∧
    (∀ n, requestIDUnmarshal (.num n) = .ok (.num n)) ∧
    requestIDUnmarshal .null = .ok .null ∧
    (∀ b, requestIDUnmarshal (.bool b) = .error "invalid request ID type".toList) ∧
    (∀ es, requestIDUnmarshal (.arr es) = .error "invalid request ID type".toList) ∧
    (∀ fs, requestIDUnmarshal (.obj fs) = .error "invalid request ID type".toList) := by
  refine ⟨?_, fun s => rfl, fun n => rfl, rfl, fun b => rfl, fun es => rfl, fun fs => rfl⟩
  intro j
  cases j <;> rfl

/-- Claim C3 (code bug): `LengthPrefixedCodec.Decode` in
src/protocol/codec.go compares the header key against the exact byte
string `"Content-Length:"`, so the lowercase and uppercase spellings —
which the package's own tests (`codec_test.go`, cases "case-insensitive
Content-Length") require to decode identically to the canonical one —
are silently ignored and the decode fails with
`missing or invalid Content-Length header`; the repository's second
implementation of the same codec (src/unnamed/part_004) matches the key
with strings.EqualFold and accepts all three spellings. -/
theorem content_length_case_bug :
    v1Decode ("content-length: 2\r\n\r\n\x7b\x7d".toList) = .error .missingOrInvalidCL ∧
    v1Decode ("CONTENT-LENGTH: 2\r\n\r\n\x7b\x7d".toList) = .error .missingOrInvalidCL ∧
    v1Decode ("Content-Length: 2\r\n\r\n\x7b\x7d".toList) = .ok (.obj [], []) ∧
    v2Decode ("content-length: 2\r\n\r\n\x7b\x7d".toList) = .ok (.obj [], []) ∧
    v2Decode ("CONTENT-LENGTH: 2\r\n\r\n\x7b\x7d".toList) = .ok (.obj [], []) :=
  ⟨rfl, rfl, rfl, rfl, rfl⟩

/-- Claim C5 (code bug): `LengthPrefixedCodec.Decode` in
src/protocol/codec.go imposes no bound on the number of header lines
scanned — a frame with 33 (or 100) junk header lines before a valid
Content-Length decodes successfully — whereas the spec requires a bound
(e.g. 32) whose excess is a fatal decode error, exactly as implemented
by the repository's second codec (src/unnamed/part_004,
`maxHeaders := 32`, error `too many header lines`). -/
theorem header_bound_missing_bug :
    v1Decode (junkHeaders 33 ++ "Content-Length: 2\r\n\r\n\x7b\x7d".toList) = .ok (.obj [], []) ∧
    v2Decode (junkHeaders 33 ++ "Content-Length: 2\r\n\r\n\x7b\x7d".toList) = .error .tooManyHeaders ∧
    v1Decode (junkHeaders 100 ++ "Content-Length: 2\r\n\r\n\x7b\x7d".toList) = .ok (.obj [], []) :=
  ⟨rfl, rfl, rfl⟩

/-- Claim C6 (code bug): a frame declaring `Content-Length: 0` is
rejected by src/protocol/codec.go at the header-validation stage (the
`contentLength <= 0` check) with `missing or invalid Content-Length
header` — it never proceeds past header parsing to the body read or the
JSON stage.  The claim's behaviour (reading the empty body and failing
as invalid JSON) is what the package's own test ("Content-Length: 0
(empty body - invalid JSON)", expecting `unexpected end of JSON input`)
requires and what the repository's second codec implementation does. -/
theorem zero_length_body_bug :
    v1Decode ("Content-Length: 0\r\n\r\n".toList) = .error .missingOrInvalidCL ∧
    v2Decode ("Content-Length: 0\r\n\r\n".toList) = .error .unmarshalErr :=
  ⟨rfl, rfl⟩

/-- Claim C7 counterexample: the frame `Content-Length: 10\r\n\r\n` has a
body (zero bytes) shorter than the declared length 10, yet Decode fails
with the clean end-of-stream error (`io.EOF`, as `io.ReadFull` returns
when no byte is available) rather than an unexpected-end-of-stream
error — exactly the behaviour the package's own test "EOF after headers
before body" expects for this input. -/
theorem truncated_body_counterexample :
    ("".toList).length < 10 ∧
    v1Decode (mkFrame 10 "".toList) = .error .eofErr ∧
    DecErr.eofErr ≠ DecErr.unexpectedEof :=
  ⟨by decide, rfl, by decide⟩

/-- Claim C7 (amended): for every frame whose body is shorter than the
declared Content-Length, Decode fails without populating the decode
target (in this model the only value-producing step, json.Unmarshal, is
reached only after a full body read): with at least one body byte the
error is io.ErrUnexpectedEOF; with zero body bytes it is the clean
io.EOF. -/
theorem truncated_body_atomicity (N : Nat) (body : List Char)
    (h1 : body.length < N) :
    v1Decode (mkFrame N body) =
      .error (if body.length = 0 then .eofErr else .unexpectedEof) := by
  rw [v1Decode_mkFrame, if_neg (by omega : ¬(N : Int) ≤ 0)]
  by_cases hz : body.length = 0
  · rw [if_pos hz, if_pos hz]
  · rw [if_neg hz, if_pos h1, if_neg hz]

/-- Witness for C7 at the spec's own scenario: `Content-Length: 10` with
the 3-byte body `abc` fails with the unexpected-end-of-stream error. -/
theorem truncated_body_atomicity_witness :
    ("abc".toList).length < 10 ∧
    v1Decode (mkFrame 10 "abc".toList) = .error .unexpectedEof := by
  refine ⟨by decide, ?_⟩
  have h := truncated_body_atomicity 10 "abc".toList (by decide)
  rw [show (if ("abc".toList).length = 0 then DecErr.eofErr else .unexpectedEof) =
    .unexpectedEof from rfl] at h
  exact h

/-- Claim C4: tools/call failure semantics — a params unmarshal failure
yields InvalidParams (-32602); an unknown tool name yields MethodNotFound
(-32601) whose message `tool <name> not found` contains the missing
name; a found tool has its handler's `(result, error)` pair returned
verbatim (widened to the router's `interface{}` result type). -/
theorem tools_call_failure_semantics (reg : Registry) (ctx : Context) (params : Option Json) :
    (∀ e, unmarshalToolCall params = .error e →
      handleToolsCall reg ctx params =
        (none, some (.protoErr ⟨Protocol.InvalidParams,
          "invalid parameters".toList, some (.str e)⟩)) ∧
      Protocol.InvalidParams = -32602) ∧
    (∀ req, unmarshalToolCall params = .ok req → reg.getTool req.name = none →
      handleToolsCall reg ctx params =
        (none, some (.protoErr ⟨Protocol.MethodNotFound,
          "tool ".toList ++ req.name ++ " not found".toList, none⟩)) ∧
      (∃ pre post, "tool ".toList ++ req.name ++ " not found".toList =
        pre ++ req.name ++ post) ∧
      Protocol.MethodNotFound = -32601) ∧
    (∀ req tool, unmarshalToolCall params = .ok req → reg.getTool req.name = some tool →
      handleToolsCall reg ctx params = liftToolOutcome (tool.handler ctx req.arguments)) := by
  refine ⟨?_, ?_, ?_⟩
  · intro e he
    unfold handleToolsCall
    rw [he]
    exact ⟨rfl, rfl⟩
  · intro req hreq hmiss
    unfold handleToolsCall
    simp only [hreq, hmiss]
    exact ⟨rfl, ⟨"tool ".toList, " not found".toList, rfl⟩, rfl⟩
  · intro req tool hreq hfound
    unfold handleToolsCall
    simp only [hreq, hfound]

/-- Witness for C4: non-object params give the InvalidParams error; the
spec's scenario naming the non-existent tool `ghost` gives code -32601
with `ghost` in the message; calling the registered `add` returns the
handler's pair verbatim. -/
theorem tools_call_failure_semantics_witness :
    handleToolsCall addRegistry ⟨none⟩ (some (.num 3)) =
      (none, some (.protoErr ⟨-32602, "invalid parameters".toList,
        some (.str "json: cannot unmarshal value into Go value of type protocol.ToolCallRequest".toList)⟩)) ∧
    handleToolsCall addRegistry ⟨none⟩ (some (.obj [("name".toList, .str "ghost".toList)])) =
      (none, some (.protoErr ⟨-32601, "tool ghost not found".toList, none⟩)) ∧
    handleToolsCall addRegistry ⟨none⟩ (some (.obj [("name".toList, .str "add".toList)])) =
      liftToolOutcome (addHandler ⟨none⟩ none) := by
  refine ⟨?_, ?_, ?_⟩
  · exact ((tools_call_failure_semantics addRegistry ⟨none⟩ (some (.num 3))).1 _ rfl).1
  · exact (((tools_call_failure_semantics addRegistry ⟨none⟩
      (some (.obj [("name".toList, .str "ghost".toList)]))).2.1 ⟨"ghost".toList, none⟩ rfl rfl)).1
  · exact ((tools_call_failure_semantics addRegistry ⟨none⟩
      (some (.obj [("name".toList, .str "add".toList)]))).2.2 ⟨"add".toList, none⟩
      ⟨"add".toList, "Adds numbers".toList, .obj [], addHandler⟩ rfl rfl)

/-- Claim C9 counterexample: ListTools iterates a Go map, whose
iteration order the Go specification leaves unspecified (and the runtime
randomises), so on a two-tool registry both orderings of the catalog are
possible results of a single call; two successive calls with no
registrations in between are therefore not guaranteed to return equal
sequences. -/
theorem tools_list_order_counterexample :
    ListToolsPossible twoToolRegistry [desc1, desc2] ∧
    ListToolsPossible twoToolRegistry [desc2, desc1] ∧
    [desc1, desc2] ≠ [desc2, desc1] := by
  refine ⟨List.Perm.refl _, List.Perm.swap desc1 desc2 [], ?_⟩
  intro hcontra
  have h1 : desc1 = desc2 := by injection hcontra
  exact absurd (congrArg PToolDescriptor.name h1) (by decide)

/-- `(k, v)` is present after the map write `m[k] = v`. -/
theorem insertReplace_mem (l : List (List Char × ToolDescriptor)) (k : List Char)
    (v : ToolDescriptor) : (k, v) ∈ insertReplace l k v := by
  induction l with
  | nil => exact List.mem_singleton.mpr rfl
  | cons kv1 rest ih =>
    obtain ⟨k1, v1⟩ := kv1
    unfold insertReplace
    by_cases hk : k = k1
    · rw [if_pos hk]
      exact List.mem_cons_self _ _
    · rw [if_neg hk]
      exact List.mem_cons_of_mem _ ih

/-- Claim C9 (amended): two ListTools reads of the same registry return
the same descriptors up to order — any two possible results are
permutations of each other (equal as multisets) — and after a tool is
registered, every possible result of the next read contains the new
tool's wire descriptor. -/
theorem tools_list_stable_up_to_order :
    (∀ (r : Registry) (l1 l2 : List PToolDescriptor),
      ListToolsPossible r l1 → ListToolsPossible r l2 → l1.Perm l2) ∧
    (∀ (r : Registry) (name description : List Char) (schema : Json)
      (handler : ToolHandlerFn) (l : List PToolDescriptor),
      ListToolsPossible (r.registerTool name description schema handler) l →
      (⟨name, description, schema⟩ : PToolDescriptor) ∈ l) := by
  constructor
  · intro r l1 l2 h1 h2
    exact h1.trans h2.symm
  · intro r name description schema handler l hl
    have hmem : (⟨name, description, schema⟩ : PToolDescriptor) ∈
        Registry.listToolsCanonical (r.registerTool name description schema handler) := by
      unfold Registry.listToolsCanonical Registry.registerTool
      exact List.mem_map.mpr ⟨(name, ⟨name, description, schema, handler⟩),
        insertReplace_mem r.tools name _, rfl⟩
    exact hl.mem_iff.mpr hmem

/-- Witness for C9 on the two-tool registry: the two admissible reads
are permutations of each other, and after registering `tool2` on top of
the one-tool registry every admissible read contains its descriptor. -/
theorem tools_list_stable_witness :
    List.Perm [desc1, desc2] [desc2, desc1] ∧
    desc2 ∈ [desc1, desc2] := by
  constructor
  · exact tools_list_stable_up_to_order.1 twoToolRegistry [desc1, desc2] [desc2, desc1]
      (List.Perm.refl _) (List.Perm.swap desc1 desc2 [])
  · exact tools_list_stable_up_to_order.2 oneToolRegistry "tool2".toList "Tool 2".toList
      (.obj []) nopToolHandler [desc1, desc2] (List.Perm.refl _)

/-- Claim C10: a well-formed JSON-RPC message whose `id` field is absent
or the JSON literal null leaves the base struct's id pointer nil, so
processMessage returns before routing: no handler is invoked (the
observation state is unchanged) and no response of any kind is sent —
the message is treated exactly like a notification. -/
theorem null_id_dropped {St : Type} (router : Router St) (msg : Json) (s : St)
    (base : Base) (hok : extractBase msg = .ok base) (hid : base.id = none) :
    processMessage router msg s = (s, []) := by
  unfold processMessage
  simp only [hok, hid]

/-- Witness for C10: the message `{"jsonrpc":"2.0","id":null,
"method":"initialize"}` parses with a nil id and is dropped — the
registered `initialize` handler's invocation count stays 0 and no
response is produced. -/
theorem null_id_dropped_witness :
    extractBase nullIdMsg = .ok ⟨"2.0".toList, none, "initialize".toList⟩ ∧
    processMessage countingRouter nullIdMsg 0 = (0, []) :=
  ⟨rfl, null_id_dropped countingRouter nullIdMsg 0
    ⟨"2.0".toList, none, "initialize".toList⟩ rfl rfl⟩
